import Mathlib

set_option maxHeartbeats 1000000

/-!
Verification development for the PTDSolEditor core (file src/sol_viewer.py):
the printable-run tokenizer with its cancellation and timeout harness, and
the label/motif field extractor embedded in the main loop.

Modelling conventions.
* Bytes are Nat values (elements of a Python bytes object, hence < 256 in
  every reachable state; theorems that need this carry it as a hypothesis).
* A token is the pair of its kind tag and payload string, mirroring the
  Python tuples ("String", text), ("Byte", hex) and ("Error", message).
* A parse outcome is the Python result triple
  (token list, was_incomplete flag, status message).
* The re.finditer loop over the pattern of two-or-more printable bytes is
  embedded as a two-state scanner (outside-run / inside-run) producing one
  token block per finditer iteration; each block consists of the Byte tokens
  for the gap bytes preceding the match followed by the String token of the
  match, exactly as one loop iteration of the source appends them.  The
  cancellation flag is polled once at the head of each iteration, so an
  interrupted run keeps exactly the blocks of the iterations already done.
* File I/O and the cross-thread queue are represented by their delivered
  values: the read result is an Except (error branch = the caught exception
  text), the queue wait is an Option (none = timeout fired first).
-/

/-- Token: the pair of a kind tag and a payload string. -/
abbrev Token := String × String

/-- Printable byte class of the scanning pattern (sol_viewer.py line 100):
ASCII 0x20 through 0x7e, plus tab, newline and carriage return. -/
def printableByte (b : Nat) : Bool :=
  (32 ≤ b && b ≤ 126) || b == 9 || b == 10 || b == 13

/-- Lowercase hexadecimal digit for a value below 16. -/
def hexDigit (n : Nat) : Char :=
  if n < 10 then Char.ofNat (48 + n) else Char.ofNat (87 + n)

/-- Rendering of one byte as in sol_viewer.py line 111: the 0x prefix
followed by two lowercase hexadecimal digits (bytes are below 256). -/
def byteHex (b : Nat) : String :=
  String.mk ['0', 'x', hexDigit (b / 16), hexDigit (b % 16)]

/-- Byte token for a single byte outside any qualifying printable run. -/
def byteTok (b : Nat) : Token := ("Byte", byteHex b)

/-- Decoding of a matched run (sol_viewer.py line 114).  The utf-8 decode
with errors=ignore is exact and per byte on the printable ASCII bytes that
make up every match of the pattern. -/
def decodeRun (run : List Nat) : String := String.mk (run.map Char.ofNat)

/-- Token block of one finditer iteration (sol_viewer.py lines 108-116):
Byte tokens for the gap bytes before the match, then the String token of the
decoded match, the latter only when the decoded text is nonempty (the
if raw_string guard on line 115). -/
def chunkOf (gap run : List Nat) : List Token :=
  gap.map byteTok ++ (if decodeRun run = "" then [] else [("String", decodeRun run)])

/-- Two-state embedding of the re.finditer scan (sol_viewer.py lines
102-123).  Arguments: gap bytes accumulated since the end of the previous
match, the printable run currently open, and the remaining input.  Returns
the token blocks of the finditer iterations in order, together with the
bytes left after the final match (line 121-123 turns those into Byte
tokens).  A maximal printable run of length at least two is a match of the
pattern; a shorter one falls back into the gap. -/
def scanA : List Nat → List Nat → List Nat → List (List Token) × List Nat
  | gap, run, [] =>
    if 2 ≤ run.length then ([chunkOf gap run], []) else ([], gap ++ run)
  | gap, run, b :: rest =>
    if printableByte b then
      scanA gap (run ++ [b]) rest
    else if 2 ≤ run.length then
      let r := scanA [b] [] rest
      (chunkOf gap run :: r.1, r.2)
    else
      scanA (gap ++ run ++ [b]) [] rest

/-- Flat token list of a scan result: the blocks in order followed by the
Byte tokens of the trailing bytes. -/
def flatOf (r : List (List Token) × List Nat) : List Token :=
  r.1.flatten ++ r.2.map byteTok

/-- Blocks and trailing bytes of the scan of the truncated buffer
(truncation on sol_viewer.py line 99). -/
def chunksOf (data : List Nat) (maxBytes : Nat) : List (List Token) × List Nat :=
  scanA [] [] (data.take maxBytes)

/-- Outcome of a scan that runs to the end (sol_viewer.py line 125). -/
def parseComplete (data : List Nat) (maxBytes : Nat) : List Token × Bool × String :=
  (flatOf (chunksOf data maxBytes), false, "Complete")

/-- Outcome when the stop event becomes visible at the poll heading finditer
iteration k (sol_viewer.py lines 104-106): the blocks of the iterations
already done, with the incomplete flag and the Interrupted status.  When k
is not below the number of iterations the poll never fires and the scan
completes. -/
def parseCancelAt (data : List Nat) (maxBytes k : Nat) : List Token × Bool × String :=
  if k < (chunksOf data maxBytes).1.length then
    (((chunksOf data maxBytes).1.take k).flatten, true, "Interrupted")
  else
    parseComplete data maxBytes

/-- Default byte cap of the tokenizer (sol_viewer.py line 92). -/
def max_bytes_to_process : Nat := 1024 * 100

/-- Embedding of the threaded parse body (sol_viewer.py lines 92-128): a
failing read reaches the except clause, which delivers the single
descriptive Error token with the Error status; a successful read delivers
the scan of the truncated data.  The function is total: no exception
escapes. -/
def parse_sol_content_threaded (readResult : Except String (List Nat))
    (maxBytes k : Nat) : List Token × Bool × String :=
  match readResult with
  | .error e => ([("Error", "Error parsing: " ++ e)], true, "Error")
  | .ok data => parseCancelAt data maxBytes k

/-- Embedding of the timeout wrapper (sol_viewer.py lines 130-148): when the
queue delivers a result within the timeout it is returned verbatim; when the
wait times out (none) the synthesized outcome carries one Error token naming
the timeout duration, the incomplete flag and the Timed Out status.  The
duration is passed as its rendered text. -/
def parse_sol_content_with_timeout (threadResult : Option (List Token × Bool × String))
    (timeoutStr : String) : List Token × Bool × String :=
  match threadResult with
  | some r => r
  | none =>
    ([("Error", "Parsing timed out after " ++ timeoutStr ++
        "s. Content may be too large or complex.")], true, "Timed Out")

/-- Python whitespace stripped by str.strip (ASCII range). -/
def pyWhitespace (c : Char) : Bool :=
  c == ' ' || c == '\t' || c == '\n' || c == '\r' || c == '\x0b' || c == '\x0c'

/-- Embedding of clean_string (sol_viewer.py lines 63-67) on a str value:
null characters removed, then whitespace stripped from both ends. -/
def clean_string (s : String) : String :=
  String.mk ((((s.data.filter (fun c => c != '\x00')).dropWhile
    pyWhitespace).reverse.dropWhile pyWhitespace).reverse)

/-- Word characters of the regex class backslash-W complement, for the ASCII
text the tokenizer produces: letters, digits and underscore. -/
def isWordChar (c : Char) : Bool := c.isAlphanum || c == '_'

/-- Cleaning applied to a captured motif value (sol_viewer.py lines 306-307):
clean_string followed by stripping the leading run of non-word characters. -/
def cleanValue (s : String) : String :=
  String.mk ((clean_string s).data.dropWhile (fun c => !isWordChar c))

/-- Token at index j of the scanned content, with a dummy outside the range;
the extraction loop guards every access with an explicit bound check, so the
dummy is never consulted by a taken branch. -/
def tokAt (content : List Token) (j : Nat) : Token :=
  (content.get? j).getD ("", "")

/-- One iteration of the extraction loop (sol_viewer.py lines 297-334) at
index i: the Password label updates its slot on a structural 3-token or
4-token motif match, the Email label additionally requires the cleaned
candidate to contain both the at sign and a dot. -/
def extractStep (content : List Token) (acc : String × String) (i : Nat) :
    String × String :=
  let pw :=
    if tokAt content i = ("String", "Password") then
      if i + 3 < content.length ∧ tokAt content (i+1) = ("Byte", "0x06") ∧
          (tokAt content (i+2)).1 = "String" ∧ tokAt content (i+3) = ("Byte", "0x00") then
        cleanValue (tokAt content (i+2)).2
      else if i + 4 < content.length ∧ tokAt content (i+1) = ("Byte", "0x06") ∧
          (tokAt content (i+2)).1 = "Byte" ∧ (tokAt content (i+3)).1 = "String" ∧
          tokAt content (i+4) = ("Byte", "0x00") then
        cleanValue (tokAt content (i+3)).2
      else acc.2
    else acc.2
  let em :=
    if tokAt content i = ("String", "Email") then
      if i + 3 < content.length ∧ tokAt content (i+1) = ("Byte", "0x06") ∧
          (tokAt content (i+2)).1 = "String" ∧ tokAt content (i+3) = ("Byte", "0x00") then
        let pot := cleanValue (tokAt content (i+2)).2
        if pot.data.contains '@' ∧ pot.data.contains '.' then pot else acc.1
      else if i + 4 < content.length ∧ tokAt content (i+1) = ("Byte", "0x06") ∧
          (tokAt content (i+2)).1 = "Byte" ∧ (tokAt content (i+3)).1 = "String" ∧
          tokAt content (i+4) = ("Byte", "0x00") then
        let pot := cleanValue (tokAt content (i+3)).2
        if pot.data.contains '@' ∧ pot.data.contains '.' then pot else acc.1
      else acc.1
    else acc.1
  (em, pw)

/-- Field extraction over a finished token list (sol_viewer.py lines
292-334): one linear pass over all indices starting from the two Not found
sentinels. -/
def extractFields (content : List Token) : String × String :=
  (List.range content.length).foldl (extractStep content) ("Not found", "Not found")

/-- Cleaned candidate of a structurally valid Password motif at index i, or
none when the label or the motif is absent there. -/
def passwordMatchAt (content : List Token) (i : Nat) : Option String :=
  if tokAt content i = ("String", "Password") then
    if i + 3 < content.length ∧ tokAt content (i+1) = ("Byte", "0x06") ∧
        (tokAt content (i+2)).1 = "String" ∧ tokAt content (i+3) = ("Byte", "0x00") then
      some (cleanValue (tokAt content (i+2)).2)
    else if i + 4 < content.length ∧ tokAt content (i+1) = ("Byte", "0x06") ∧
        (tokAt content (i+2)).1 = "Byte" ∧ (tokAt content (i+3)).1 = "String" ∧
        tokAt content (i+4) = ("Byte", "0x00") then
      some (cleanValue (tokAt content (i+3)).2)
    else none
  else none

/-- Cleaned candidate of a structurally valid Email motif at index i, before
the at-sign and dot validation. -/
def emailCandAt (content : List Token) (i : Nat) : Option String :=
  if tokAt content i = ("String", "Email") then
    if i + 3 < content.length ∧ tokAt content (i+1) = ("Byte", "0x06") ∧
        (tokAt content (i+2)).1 = "String" ∧ tokAt content (i+3) = ("Byte", "0x00") then
      some (cleanValue (tokAt content (i+2)).2)
    else if i + 4 < content.length ∧ tokAt content (i+1) = ("Byte", "0x06") ∧
        (tokAt content (i+2)).1 = "Byte" ∧ (tokAt content (i+3)).1 = "String" ∧
        tokAt content (i+4) = ("Byte", "0x00") then
      some (cleanValue (tokAt content (i+3)).2)
    else none
  else none

/-- Email candidate that also passes the at-sign and dot validation. -/
def emailMatchAt (content : List Token) (i : Nat) : Option String :=
  match emailCandAt content i with
  | some v => if v.data.contains '@' ∧ v.data.contains '.' then some v else none
  | none => none

example : printableByte 65 = true := by decide
example : byteHex 0 = "0x00" := by decide
example : byteHex 255 = "0xff" := by decide
example : decodeRun [72, 105] = "Hi" := by decide
example :
    (parseComplete [72, 105, 0, 33] 100).1 =
      [("String", "Hi"), ("Byte", "0x00"), ("Byte", "0x21")] := by decide
example : (parseComplete [] 100) = ([], false, "Complete") := by decide
example : (parseCancelAt [65, 66, 0, 67, 68] 100 1).1 = [("String", "AB")] := by decide
example : cleanValue "  \x00!!a@b.com " = "a@b.com" := by decide
example :
    (extractFields [("String", "Email"), ("Byte", "0x06"), ("String", "  a@b.com"),
      ("Byte", "0x00")]).1 = "a@b.com" := by decide
example :
    (extractFields [("String", "Email"), ("Byte", "0x06"), ("String", "not-an-email"),
      ("Byte", "0x00")]).1 = "Not found" := by decide
example :
    (extractFields [("String", "Password"), ("Byte", "0x06"), ("Byte", "0xff"),
      ("String", "sEcr3t!"), ("Byte", "0x00")]).2 = "sEcr3t!" := by decide
example :
    (extractFields [("String", "Password"), ("Byte", "0x06"), ("String", "first1"),
      ("Byte", "0x00"), ("String", "Password"), ("Byte", "0x06"), ("String", "second"),
      ("Byte", "0x00")]).2 = "second" := by decide

/-- Bytes of input a token stands for: the text length for a String token
(exact on the ASCII runs the scanner decodes), one for any other token. -/
def tokenBytes (t : Token) : Nat :=
  if t.1 = "String" then t.2.length else 1

/-- Total bytes of input a token list stands for. -/
def sumBytes : List Token → Nat
  | [] => 0
  | t :: l => tokenBytes t + sumBytes l

theorem decodeRun_eq_empty_iff (run : List Nat) : decodeRun run = "" ↔ run = [] := by
  constructor
  · intro h
    have : (run.map Char.ofNat) = ([] : List Char) := by
      have := congrArg String.data h
      simpa [decodeRun] using this
    simpa using this
  · intro h
    simp [h, decodeRun]

theorem length_decodeRun (run : List Nat) : (decodeRun run).length = run.length := by
  simp [decodeRun]

theorem tokenBytes_byteTok (b : Nat) : tokenBytes (byteTok b) = 1 := by
  simp [tokenBytes, byteTok]

theorem sumBytes_append (l₁ l₂ : List Token) :
    sumBytes (l₁ ++ l₂) = sumBytes l₁ + sumBytes l₂ := by
  induction l₁ with
  | nil => simp [sumBytes]
  | cons t l ih => simp [sumBytes, ih]; omega

theorem sumBytes_mapByteTok (l : List Nat) : sumBytes (l.map byteTok) = l.length := by
  induction l with
  | nil => rfl
  | cons b rest ih => simp [sumBytes, tokenBytes_byteTok, ih]; omega

theorem sumBytes_chunkOf (gap run : List Nat) :
    sumBytes (chunkOf gap run) = gap.length + run.length := by
  by_cases h : decodeRun run = ""
  · have hr : run = [] := (decodeRun_eq_empty_iff run).mp h
    rw [chunkOf, if_pos h, List.append_nil, sumBytes_mapByteTok, hr]
    simp
  · rw [chunkOf, if_neg h, sumBytes_append, sumBytes_mapByteTok]
    simp [sumBytes, tokenBytes, length_decodeRun]

theorem flatOf_cons_chunk (c : List Token) (r : List (List Token) × List Nat) :
    flatOf (c :: r.1, r.2) = c ++ flatOf r := by
  simp [flatOf]

theorem scanA_bytes (l : List Nat) : ∀ gap run : List Nat,
    sumBytes (flatOf (scanA gap run l)) = gap.length + run.length + l.length := by
  induction l with
  | nil =>
    intro gap run
    by_cases h : 2 ≤ run.length
    · rw [scanA, if_pos h]
      show sumBytes (flatOf ([chunkOf gap run], [])) = _
      simp [flatOf, sumBytes_append, sumBytes_chunkOf, sumBytes]
    · rw [scanA, if_neg h]
      show sumBytes (flatOf ([], gap ++ run)) = _
      simp only [flatOf, List.flatten_nil, List.nil_append, List.map_append]
      rw [sumBytes_append, sumBytes_mapByteTok, sumBytes_mapByteTok]
      simp
  | cons b rest ih =>
    intro gap run
    by_cases hb : printableByte b
    · rw [scanA, if_pos hb, ih]
      simp
      omega
    · by_cases h2 : 2 ≤ run.length
      · rw [scanA, if_neg hb, if_pos h2]
        show sumBytes (flatOf (chunkOf gap run :: (scanA [b] [] rest).1, (scanA [b] [] rest).2)) = _
        rw [flatOf_cons_chunk, sumBytes_append, sumBytes_chunkOf, ih [b] []]
        simp
        omega
      · rw [scanA, if_neg hb, if_neg h2, ih]
        simp
        omega

/-- Emptiness or a non-printable head: the right-hand neighbour of such a
boundary can never extend a printable run across it. -/
def startsNonPrintable : List Nat → Bool
  | [] => true
  | b :: _ => !printableByte b

/-- Emptiness or a non-printable last byte: the left-hand neighbour of such a
boundary can never extend a printable run across it. -/
def endsNonPrintable : List Nat → Bool
  | [] => true
  | [b] => !printableByte b
  | _ :: rest => endsNonPrintable rest

theorem chunkOf_gap_split (gap run : List Nat) :
    chunkOf gap run = gap.map byteTok ++ chunkOf [] run := by
  simp [chunkOf]

theorem scanA_nil_flush (gap run : List Nat) (h2 : 2 ≤ run.length) :
    scanA gap run [] = ([chunkOf gap run], []) := by
  rw [scanA, if_pos h2]

theorem scanA_nil_gap (gap run : List Nat) (h2 : ¬ 2 ≤ run.length) :
    scanA gap run [] = ([], gap ++ run) := by
  rw [scanA, if_neg h2]

theorem scanA_cons_print (gap run : List Nat) (b : Nat) (rest : List Nat)
    (hb : printableByte b = true) :
    scanA gap run (b :: rest) = scanA gap (run ++ [b]) rest := by
  rw [scanA, if_pos hb]

theorem scanA_cons_flush (gap run : List Nat) (b : Nat) (rest : List Nat)
    (hb : printableByte b = false) (h2 : 2 ≤ run.length) :
    scanA gap run (b :: rest) =
      (chunkOf gap run :: (scanA [b] [] rest).1, (scanA [b] [] rest).2) := by
  rw [scanA]
  simp [hb, h2]

theorem scanA_cons_gap (gap run : List Nat) (b : Nat) (rest : List Nat)
    (hb : printableByte b = false) (h2 : ¬ 2 ≤ run.length) :
    scanA gap run (b :: rest) = scanA (gap ++ run ++ [b]) [] rest := by
  rw [scanA]
  simp [hb, h2]

theorem scanA_split_right (ys : List Nat) (hys : startsNonPrintable ys = true)
    (xs : List Nat) : ∀ gap run : List Nat,
    scanA gap run (xs ++ ys) =
      ((scanA gap run xs).1 ++ (scanA (scanA gap run xs).2 [] ys).1,
        (scanA (scanA gap run xs).2 [] ys).2) := by
  induction xs with
  | nil =>
    intro gap run
    by_cases h2 : 2 ≤ run.length
    · cases ys with
      | nil =>
        rw [List.nil_append, scanA_nil_flush gap run h2]
        simp [scanA]
      | cons y ys' =>
        have hy : printableByte y = false := by
          simpa [startsNonPrintable] using hys
        rw [List.nil_append, scanA_nil_flush gap run h2,
          scanA_cons_flush gap run y ys' hy h2]
        simp [scanA, hy]
    · cases ys with
      | nil =>
        rw [List.nil_append, scanA_nil_gap gap run h2]
        simp [scanA]
      | cons y ys' =>
        have hy : printableByte y = false := by
          simpa [startsNonPrintable] using hys
        rw [List.nil_append, scanA_nil_gap gap run h2,
          scanA_cons_gap gap run y ys' hy h2]
        simp [scanA, hy]
  | cons x xs' ih =>
    intro gap run
    by_cases hx : printableByte x
    · rw [List.cons_append, scanA_cons_print gap run x (xs' ++ ys) hx,
        scanA_cons_print gap run x xs' hx]
      exact ih gap (run ++ [x])
    · have hx' : printableByte x = false := by simpa using hx
      by_cases h2 : 2 ≤ run.length
      · rw [List.cons_append, scanA_cons_flush gap run x (xs' ++ ys) hx' h2,
          scanA_cons_flush gap run x xs' hx' h2, ih [x] []]
        simp
      · rw [List.cons_append, scanA_cons_gap gap run x (xs' ++ ys) hx' h2,
          scanA_cons_gap gap run x xs' hx' h2]
        exact ih (gap ++ run ++ [x]) []

theorem scanA_split_left (ys : List Nat) (xs : List Nat) : ∀ gap run : List Nat,
    endsNonPrintable xs = true → (xs = [] → run = []) →
    scanA gap run (xs ++ ys) =
      ((scanA gap run xs).1 ++ (scanA (scanA gap run xs).2 [] ys).1,
        (scanA (scanA gap run xs).2 [] ys).2) := by
  induction xs with
  | nil =>
    intro gap run _ hrun
    rw [hrun rfl, List.nil_append, scanA_nil_gap gap [] (by simp)]
    simp
  | cons x xs' ih =>
    intro gap run hend _
    cases xs' with
    | nil =>
      have hx : printableByte x = false := by
        simpa [endsNonPrintable] using hend
      by_cases h2 : 2 ≤ run.length
      · rw [List.cons_append, List.nil_append, scanA_cons_flush gap run x ys hx h2,
          scanA_cons_flush gap run x [] hx h2, scanA_nil_gap [x] [] (by simp)]
        simp
      · rw [List.cons_append, List.nil_append, scanA_cons_gap gap run x ys hx h2,
          scanA_cons_gap gap run x [] hx h2,
          scanA_nil_gap (gap ++ run ++ [x]) [] (by simp)]
        simp
    | cons z zs =>
      have hend' : endsNonPrintable (z :: zs) = true := by
        simpa [endsNonPrintable] using hend
      by_cases hx : printableByte x
      · rw [List.cons_append, scanA_cons_print gap run x (z :: zs ++ ys) hx,
          scanA_cons_print gap run x (z :: zs) hx]
        exact ih gap (run ++ [x]) hend' (by intro h; cases h)
      · have hx' : printableByte x = false := by simpa using hx
        by_cases h2 : 2 ≤ run.length
        · rw [List.cons_append, scanA_cons_flush gap run x (z :: zs ++ ys) hx' h2,
            scanA_cons_flush gap run x (z :: zs) hx' h2,
            ih [x] [] hend' (by intro h; cases h)]
          simp
        · rw [List.cons_append, scanA_cons_gap gap run x (z :: zs ++ ys) hx' h2,
            scanA_cons_gap gap run x (z :: zs) hx' h2]
          exact ih (gap ++ run ++ [x]) [] hend' (by intro h; cases h)

theorem flatOf_scanA_gap (l : List Nat) : ∀ gap run : List Nat,
    flatOf (scanA gap run l) = gap.map byteTok ++ flatOf (scanA [] run l) := by
  induction l with
  | nil =>
    intro gap run
    by_cases h2 : 2 ≤ run.length
    · rw [scanA_nil_flush gap run h2, scanA_nil_flush [] run h2]
      simp [flatOf, chunkOf]
    · rw [scanA_nil_gap gap run h2, scanA_nil_gap [] run h2]
      simp [flatOf]
  | cons b rest ih =>
    intro gap run
    by_cases hb : printableByte b
    · rw [scanA_cons_print gap run b rest hb, scanA_cons_print [] run b rest hb]
      exact ih gap (run ++ [b])
    · have hb' : printableByte b = false := by simpa using hb
      by_cases h2 : 2 ≤ run.length
      · rw [scanA_cons_flush gap run b rest hb' h2, scanA_cons_flush [] run b rest hb' h2,
          flatOf_cons_chunk, flatOf_cons_chunk, chunkOf_gap_split]
        simp
      · rw [scanA_cons_gap gap run b rest hb' h2, scanA_cons_gap [] run b rest hb' h2]
        simp only [List.nil_append]
        rw [ih (gap ++ run ++ [b]) [], ih (run ++ [b]) []]
        simp

/-- Flat token list of the full scan of a buffer: the tokens of the complete
outcome when the byte cap does not truncate. -/
def flatScan (l : List Nat) : List Token :=
  (parseComplete l l.length).1

theorem flatScan_eq (l : List Nat) : flatScan l = flatOf (scanA [] [] l) := by
  simp [flatScan, parseComplete, chunksOf]

theorem scan_mid_single (u v : List Nat) (b : Nat) (hu : endsNonPrintable u = true)
    (hv : startsNonPrintable v = true) (hb : printableByte b = true) :
    flatOf (scanA [] [] (u ++ [b] ++ v)) =
      flatOf (scanA [] [] u) ++ [byteTok b] ++ flatOf (scanA [] [] v) := by
  have hassoc : u ++ [b] ++ v = (u ++ [b]) ++ v := by simp
  rw [hassoc, scanA_split_right v hv (u ++ [b]),
    scanA_split_left [b] u [] [] hu (fun _ => rfl),
    scanA_cons_print ((scanA [] [] u).2) [] b [] hb]
  simp only [List.nil_append]
  rw [scanA_nil_gap ((scanA [] [] u).2) [b] (by simp)]
  have hgap := flatOf_scanA_gap v ((scanA [] [] u).2 ++ [b]) []
  simp only [flatOf] at hgap
  simp only [flatOf, List.flatten_append, List.append_nil, List.append_assoc] at hgap ⊢
  rw [hgap]
  simp [List.append_assoc]

theorem scan_mid_double (u v : List Nat) (b1 b2 : Nat) (hu : endsNonPrintable u = true)
    (hv : startsNonPrintable v = true) (hb1 : printableByte b1 = true)
    (hb2 : printableByte b2 = true) :
    flatOf (scanA [] [] (u ++ [b1, b2] ++ v)) =
      flatOf (scanA [] [] u) ++ [("String", decodeRun [b1, b2])] ++
        flatOf (scanA [] [] v) := by
  have hassoc : u ++ [b1, b2] ++ v = (u ++ [b1, b2]) ++ v := by simp
  have hpair : ([b1, b2] : List Nat) = [b1] ++ [b2] := rfl
  rw [hassoc, scanA_split_right v hv (u ++ [b1, b2]),
    scanA_split_left [b1, b2] u [] [] hu (fun _ => rfl),
    scanA_cons_print ((scanA [] [] u).2) [] b1 [b2] hb1]
  simp only [List.nil_append]
  rw [scanA_cons_print ((scanA [] [] u).2) [b1] b2 [] hb2]
  simp only [List.singleton_append]
  rw [scanA_nil_flush ((scanA [] [] u).2) [b1, b2] (by simp)]
  have hne : decodeRun [b1, b2] ≠ "" := by
    intro h
    exact absurd ((decodeRun_eq_empty_iff [b1, b2]).mp h) (by simp)
  simp only [flatOf, List.flatten_append, List.flatten_cons, List.flatten_nil,
    chunkOf, if_neg hne]
  simp [List.append_assoc]

theorem extractStep_eq (content : List Token) (acc : String × String) (i : Nat) :
    extractStep content acc i =
      ((emailMatchAt content i).getD acc.1, (passwordMatchAt content i).getD acc.2) := by
  simp only [extractStep, passwordMatchAt, emailMatchAt, emailCandAt]
  split_ifs <;> simp_all
  all_goals (rw [if_neg (by tauto)]; simp)

theorem getLast?_cons_getD (v a : String) (M : List String) :
    ((v :: M).getLast?).getD a = (M.getLast?).getD v := by
  cases M with
  | nil => rfl
  | cons m ms =>
    rw [List.getLast?_cons_cons]
    rcases h : (m :: ms).getLast? with _ | x
    · exact absurd h (by simp [List.getLast?_eq_getLast_of_ne_nil])
    · rfl

theorem foldl_lastWins (f : Nat → Option String) (L : List Nat) : ∀ a : String,
    L.foldl (fun x i => (f i).getD x) a = ((L.filterMap f).getLast?).getD a := by
  induction L with
  | nil => intro a; rfl
  | cons i L ih =>
    intro a
    rcases h : f i with _ | v
    · simp only [List.foldl_cons, List.filterMap_cons, h, Option.getD_none]
      exact ih a
    · simp only [List.foldl_cons, List.filterMap_cons, h, Option.getD_some]
      rw [ih v, getLast?_cons_getD]

theorem foldl_pair_lastWins (f g : Nat → Option String) (L : List Nat) :
    ∀ a b : String,
    L.foldl (fun acc i => ((f i).getD acc.1, (g i).getD acc.2)) (a, b) =
      (((L.filterMap f).getLast?).getD a, ((L.filterMap g).getLast?).getD b) := by
  induction L with
  | nil => intro a b; rfl
  | cons i L ih =>
    intro a b
    rcases hf : f i with _ | v <;> rcases hg : g i with _ | w <;>
      simp only [List.foldl_cons, List.filterMap_cons, hf, hg, Option.getD_none,
        Option.getD_some, ih]
    all_goals simp only [getLast?_cons_getD]

theorem extractFields_char (content : List Token) :
    extractFields content =
      ((((List.range content.length).filterMap (emailMatchAt content)).getLast?).getD
          "Not found",
        (((List.range content.length).filterMap (passwordMatchAt content)).getLast?).getD
          "Not found") := by
  have hstep : extractStep content =
      fun (acc : String × String) i =>
        ((emailMatchAt content i).getD acc.1, (passwordMatchAt content i).getD acc.2) :=
    funext fun acc => funext fun i => extractStep_eq content acc i
  rw [extractFields, hstep, foldl_pair_lastWins]

/-- Printable character class on decoded text, numerically the same class as
printableByte on the underlying byte. -/
def printableChar (c : Char) : Bool :=
  (32 ≤ c.toNat && c.toNat ≤ 126) || c.toNat == 9 || c.toNat == 10 || c.toNat == 13

/-- Lowercase hexadecimal digit character. -/
def isLowerHexDigit (c : Char) : Bool :=
  ('0' ≤ c && c ≤ '9') || ('a' ≤ c && c ≤ 'f')

/-- Well-formed token of a scan outcome: a Byte token whose value is 0x
followed by exactly two lowercase hexadecimal digits, or a String token of
length at least two made of printable characters only. -/
def wfToken (t : Token) : Prop :=
  (t.1 = "Byte" ∧ ∃ c1 c2 : Char, t.2.data = ['0', 'x', c1, c2] ∧
    isLowerHexDigit c1 = true ∧ isLowerHexDigit c2 = true) ∨
  (t.1 = "String" ∧ 2 ≤ t.2.length ∧ ∀ c ∈ t.2.data, printableChar c = true)

theorem toNat_ofNat_of_lt (b : Nat) (h : b < 55296) : (Char.ofNat b).toNat = b := by
  have hv : Nat.isValidChar b := Or.inl h
  simp only [Char.ofNat, Char.ofNatAux, hv, dite_true, Char.toNat, dif_pos]
  rfl

theorem printableByte_lt (b : Nat) (hb : printableByte b = true) : b < 55296 := by
  simp [printableByte] at hb
  rcases hb with ⟨_, h⟩ | h | h | h <;> omega

theorem printableChar_ofNat_eq (b : Nat) (h : b < 55296) :
    printableChar (Char.ofNat b) = printableByte b := by
  have ht := toNat_ofNat_of_lt b h
  simp only [printableChar, printableByte, ht]

theorem isLowerHexDigit_hexDigit (n : Nat) (h : n < 16) :
    isLowerHexDigit (hexDigit n) = true := by
  interval_cases n <;> decide

theorem wfToken_byteTok (b : Nat) (h : b < 256) : wfToken (byteTok b) := by
  left
  refine ⟨rfl, hexDigit (b / 16), hexDigit (b % 16), rfl, ?_, ?_⟩
  · exact isLowerHexDigit_hexDigit _ (by omega)
  · exact isLowerHexDigit_hexDigit _ (by omega)

theorem wfToken_string_run (run : List Nat)
    (hr : ∀ b ∈ run, b < 256 ∧ printableByte b = true) (h2 : 2 ≤ run.length) :
    wfToken (("String", decodeRun run) : Token) := by
  right
  refine ⟨rfl, ?_, ?_⟩
  · simpa [length_decodeRun] using h2
  · intro c hc
    have hc' : c ∈ run.map Char.ofNat := by simpa [decodeRun] using hc
    obtain ⟨b, hb, rfl⟩ := List.mem_map.mp hc'
    have hpb := (hr b hb).2
    rw [printableChar_ofNat_eq b (printableByte_lt b hpb)]
    exact hpb

theorem wfToken_chunkOf (gap run : List Nat) (hg : ∀ b ∈ gap, b < 256)
    (hr : ∀ b ∈ run, b < 256 ∧ printableByte b = true) (h2 : 2 ≤ run.length) :
    ∀ t ∈ chunkOf gap run, wfToken t := by
  intro t ht
  rw [chunkOf] at ht
  rcases List.mem_append.mp ht with h | h
  · obtain ⟨b, hb, rfl⟩ := List.mem_map.mp h
    exact wfToken_byteTok b (hg b hb)
  · have hne : decodeRun run ≠ "" := by
      intro hh
      have := (decodeRun_eq_empty_iff run).mp hh
      subst this
      simp at h2
    rw [if_neg hne] at h
    have : t = ("String", decodeRun run) := by simpa using h
    subst this
    exact wfToken_string_run run hr h2

theorem scanA_wf (l : List Nat) : ∀ gap run : List Nat,
    (∀ b ∈ gap, b < 256) → (∀ b ∈ run, b < 256 ∧ printableByte b = true) →
    (∀ b ∈ l, b < 256) →
    (∀ c ∈ (scanA gap run l).1, ∀ t ∈ c, wfToken t) ∧
      (∀ b ∈ (scanA gap run l).2, b < 256) := by
  induction l with
  | nil =>
    intro gap run hg hr _
    by_cases h2 : 2 ≤ run.length
    · rw [scanA_nil_flush gap run h2]
      refine ⟨?_, by simp⟩
      intro c hc
      have : c = chunkOf gap run := by simpa using hc
      subst this
      exact wfToken_chunkOf gap run hg hr h2
    · rw [scanA_nil_gap gap run h2]
      refine ⟨by simp, ?_⟩
      intro b hb
      rcases List.mem_append.mp hb with h | h
      · exact hg b h
      · exact (hr b h).1
  | cons b rest ih =>
    intro gap run hg hr hl
    have hb256 : b < 256 := hl b (by simp)
    have hrest : ∀ x ∈ rest, x < 256 := fun x hx => hl x (by simp [hx])
    by_cases hb : printableByte b
    · rw [scanA_cons_print gap run b rest hb]
      refine ih gap (run ++ [b]) hg ?_ hrest
      intro x hx
      rcases List.mem_append.mp hx with h | h
      · exact hr x h
      · have : x = b := by simpa using h
        subst this
        exact ⟨hb256, hb⟩
    · have hb' : printableByte b = false := by simpa using hb
      by_cases h2 : 2 ≤ run.length
      · rw [scanA_cons_flush gap run b rest hb' h2]
        have hrec := ih [b] [] (by simpa using hb256) (by simp) hrest
        refine ⟨?_, hrec.2⟩
        intro c hc
        rcases List.mem_cons.mp hc with h | h
        · subst h
          exact wfToken_chunkOf gap run hg hr h2
        · exact hrec.1 c h
      · rw [scanA_cons_gap gap run b rest hb' h2]
        refine ih (gap ++ run ++ [b]) [] ?_ (by simp) hrest
        intro x hx
        rcases List.mem_append.mp hx with h | h
        · rcases List.mem_append.mp h with h' | h'
          · exact hg x h'
          · exact (hr x h').1
        · have : x = b := by simpa using h
          subst this
          exact hb256

theorem filterMap_emailMatch (content : List Token) (L : List Nat) :
    L.filterMap (emailMatchAt content) =
      (L.filterMap (emailCandAt content)).filter
        (fun v => v.data.contains '@' && v.data.contains '.') := by
  induction L with
  | nil => rfl
  | cons i L ih =>
    simp only [List.filterMap_cons]
    rcases h : emailCandAt content i with _ | v
    · have hm : emailMatchAt content i = none := by simp [emailMatchAt, h]
      rw [hm, ih]
    · by_cases hc : v.data.contains '@' = true ∧ v.data.contains '.' = true
      · have hm : emailMatchAt content i = some v := by
          simp only [emailMatchAt, h]
          rw [if_pos hc]
        rw [hm, ih]
        simp only [List.filter_cons]
        rw [if_pos (show (v.data.contains '@' && v.data.contains '.') = true by
          rw [hc.1, hc.2]; rfl)]
      · have hm : emailMatchAt content i = none := by
          simp only [emailMatchAt, h]
          rw [if_neg hc]
        rw [hm, ih]
        simp only [List.filter_cons]
        rw [if_neg (by simpa [Bool.and_eq_true] using hc)]

/-- C1 counterexample: the claim that for two or more Password labels each
followed by a structurally valid motif the FIRST match is kept is false.  On
the token list below the first structurally valid Password motif (at index
0) carries the cleaned value first1, yet extraction returns second, the
value of the later match at index 4, because each structural match
overwrites the slot. -/
theorem C1_counterexample :
    (extractFields [("String", "Password"), ("Byte", "0x06"), ("String", "first1"),
        ("Byte", "0x00"), ("String", "Password"), ("Byte", "0x06"), ("String", "second"),
        ("Byte", "0x00")]).2 = "second" ∧
      passwordMatchAt [("String", "Password"), ("Byte", "0x06"), ("String", "first1"),
        ("Byte", "0x00"), ("String", "Password"), ("Byte", "0x06"), ("String", "second"),
        ("Byte", "0x00")] 0 = some "first1" ∧
      ("second" : String) ≠ "first1" :=
  ⟨by decide, by decide, by decide⟩

/-- C1 (amended): in extractFields the password returned is the cleaned
value of the LAST structurally valid Password motif match of the linear
scan; a Password label occurrence without a structurally valid motif leaves
the held value unchanged, and without any match the Not found sentinel
remains. -/
theorem C1_password_last_match_wins (content : List Token) :
    (extractFields content).2 =
      (((List.range content.length).filterMap (passwordMatchAt content)).getLast?).getD
        "Not found" := by
  rw [extractFields_char]

/-- C2 counterexample: the claim that the timeout outcome has an EMPTY token
list (and a status message naming the duration) is false: at timeout 5.0
the returned token list is one Error token (the duration appears in that
token text), and the status message is the fixed string Timed Out. -/
theorem C2_counterexample :
    (parse_sol_content_with_timeout none "5.0").1 =
        [("Error",
          "Parsing timed out after 5.0s. Content may be too large or complex.")] ∧
      (parse_sol_content_with_timeout none "5.0").1 ≠ [] ∧
      (parse_sol_content_with_timeout none "5.0").2.2 = "Timed Out" :=
  ⟨by decide, by decide, by decide⟩

/-- C2 (amended): when the timeout elapses before the tokenizer delivers a
result, the returned outcome carries the incomplete flag, the status
message Timed Out, and a token list of exactly one Error token whose text
names the timeout duration. -/
theorem C2_timeout_outcome (ts : String) :
    (parse_sol_content_with_timeout none ts).2.1 = true ∧
      (parse_sol_content_with_timeout none ts).2.2 = "Timed Out" ∧
      (parse_sol_content_with_timeout none ts).1.length = 1 ∧
      ∃ pre post : String,
        (parse_sol_content_with_timeout none ts).1 = [("Error", pre ++ ts ++ post)] :=
  ⟨rfl, rfl, rfl, "Parsing timed out after ",
    "s. Content may be too large or complex.", rfl⟩

/-- C3: in an outcome whose status is Complete, the sum over all tokens of
the input bytes each token stands for (decoded text length for a String
token, one for a Byte token) equals the length of the truncated input
buffer. -/
theorem C3_complete_coverage (data : List Nat) (maxBytes k : Nat)
    (h : (parseCancelAt data maxBytes k).2.2 = "Complete") :
    sumBytes (parseCancelAt data maxBytes k).1 = (data.take maxBytes).length := by
  by_cases hk : k < (chunksOf data maxBytes).1.length
  · exfalso
    simp only [parseCancelAt] at h
    rw [if_pos hk] at h
    simp at h
  · simp only [parseCancelAt]
    rw [if_neg hk]
    simp only [parseComplete, chunksOf]
    have := scanA_bytes (data.take maxBytes) [] []
    simpa using this

/-- C3 witness at a concrete buffer. -/
theorem C3_complete_coverage_witness :
    (parseCancelAt [72, 105, 0] 100 5).2.2 = "Complete" ∧
      sumBytes (parseCancelAt [72, 105, 0] 100 5).1 = ([72, 105, 0].take 100).length :=
  ⟨by decide, C3_complete_coverage [72, 105, 0] 100 5 (by decide)⟩

/-- C4: when cancellation is honored at the poll heading finditer iteration
k, the outcome is interrupted and its token list is a prefix of the token
list of the complete outcome of the same input. -/
theorem C4_interrupted_prefix (data : List Nat) (maxBytes k : Nat)
    (hk : k < (chunksOf data maxBytes).1.length) :
    parseCancelAt data maxBytes k =
        (((chunksOf data maxBytes).1.take k).flatten, true, "Interrupted") ∧
      ∃ t : List Token,
        (parseCancelAt data maxBytes k).1 ++ t = (parseComplete data maxBytes).1 := by
  have h1 : parseCancelAt data maxBytes k =
      (((chunksOf data maxBytes).1.take k).flatten, true, "Interrupted") := by
    simp only [parseCancelAt]
    rw [if_pos hk]
  refine ⟨h1, ⟨((chunksOf data maxBytes).1.drop k).flatten ++
      ((chunksOf data maxBytes).2.map byteTok), ?_⟩⟩
  rw [h1]
  simp only [parseComplete, flatOf]
  rw [← List.append_assoc, ← List.flatten_append, List.take_append_drop]

/-- C4 witness at a concrete buffer interrupted after one match. -/
theorem C4_interrupted_prefix_witness :
    1 < (chunksOf [65, 66, 0, 67, 68] 100).1.length ∧
      (parseCancelAt [65, 66, 0, 67, 68] 100 1 =
          (((chunksOf [65, 66, 0, 67, 68] 100).1.take 1).flatten, true, "Interrupted") ∧
        ∃ t : List Token, (parseCancelAt [65, 66, 0, 67, 68] 100 1).1 ++ t =
          (parseComplete [65, 66, 0, 67, 68] 100).1) :=
  ⟨by decide, C4_interrupted_prefix [65, 66, 0, 67, 68] 100 1 (by decide)⟩

/-- C5: the email result equals the last structurally matched cleaned
candidate that contains both the at sign and a dot, or the Not found
sentinel when none does: failing candidates are no-ops that retain the
prior value and a later passing occurrence becomes the result. -/
theorem C5_email_requires_at_and_dot (content : List Token) :
    (extractFields content).1 =
      ((((List.range content.length).filterMap (emailCandAt content)).filter
          (fun v => v.data.contains '@' && v.data.contains '.')).getLast?).getD
        "Not found" := by
  rw [extractFields_char, filterMap_emailMatch]

/-- C6: a maximal printable run of exactly one byte is emitted as a Byte
token (never a String token), and a maximal printable run of exactly two
bytes is emitted as a single String token. -/
theorem C6_run_length_threshold (u v : List Nat) (b b1 b2 : Nat)
    (hu : endsNonPrintable u = true) (hv : startsNonPrintable v = true)
    (hb : printableByte b = true) (hb1 : printableByte b1 = true)
    (hb2 : printableByte b2 = true) :
    flatScan (u ++ [b] ++ v) = flatScan u ++ [byteTok b] ++ flatScan v ∧
      flatScan (u ++ [b1, b2] ++ v) =
        flatScan u ++ [("String", decodeRun [b1, b2])] ++ flatScan v := by
  constructor
  · simp only [flatScan_eq]
    exact scan_mid_single u v b hu hv hb
  · simp only [flatScan_eq]
    exact scan_mid_double u v b1 b2 hu hv hb1 hb2

/-- C6 witness at concrete runs between non-printable neighbours. -/
theorem C6_run_length_threshold_witness :
    (endsNonPrintable [0] = true ∧ startsNonPrintable [7] = true ∧
        printableByte 65 = true ∧ printableByte 66 = true ∧ printableByte 67 = true) ∧
      (flatScan ([0] ++ [65] ++ [7]) = flatScan [0] ++ [byteTok 65] ++ flatScan [7] ∧
        flatScan ([0] ++ [66, 67] ++ [7]) =
          flatScan [0] ++ [("String", decodeRun [66, 67])] ++ flatScan [7]) :=
  ⟨⟨by decide, by decide, by decide, by decide, by decide⟩,
    C6_run_length_threshold [0] [7] 65 66 67 (by decide) (by decide) (by decide)
      (by decide) (by decide)⟩

/-- C7: two buffers agreeing on their first maxBytes bytes give identical
outcomes at every cancellation point, the complete outcome of a truncated
buffer still carries the Complete status and the non-incomplete flag (the
truncation is silent), and the default byte cap is 102400. -/
theorem C7_truncation_silent (d1 d2 : List Nat) (maxBytes k : Nat)
    (h : d1.take maxBytes = d2.take maxBytes) :
    parseCancelAt d1 maxBytes k = parseCancelAt d2 maxBytes k ∧
      (parseComplete d1 maxBytes).2.1 = false ∧
      (parseComplete d1 maxBytes).2.2 = "Complete" ∧
      max_bytes_to_process = 102400 := by
  refine ⟨?_, rfl, rfl, rfl⟩
  simp only [parseCancelAt, parseComplete, chunksOf, h]

/-- C7 witness at two concrete buffers agreeing on their first two bytes. -/
theorem C7_truncation_silent_witness :
    ([65, 66, 67] : List Nat).take 2 = ([65, 66, 99] : List Nat).take 2 ∧
      (parseCancelAt [65, 66, 67] 2 3 = parseCancelAt [65, 66, 99] 2 3 ∧
        (parseComplete [65, 66, 67] 2).2.1 = false ∧
        (parseComplete [65, 66, 67] 2).2.2 = "Complete" ∧
        max_bytes_to_process = 102400) :=
  ⟨by decide, C7_truncation_silent [65, 66, 67] [65, 66, 99] 2 3 (by decide)⟩

/-- C8: an unreadable path reaches the except clause, whose outcome is the
Error status with a single descriptive token; the embedding is a total
function, so no exception propagates. -/
theorem C8_read_error_outcome (e : String) (maxBytes k : Nat) :
    parse_sol_content_threaded (Except.error e) maxBytes k =
        ([("Error", "Error parsing: " ++ e)], true, "Error") ∧
      (parse_sol_content_threaded (Except.error e) maxBytes k).1.length = 1 :=
  ⟨rfl, rfl⟩

/-- C9: an empty input buffer gives the complete outcome with zero
tokens. -/
theorem C9_empty_input_complete (maxBytes k : Nat) :
    parse_sol_content_threaded (Except.ok []) maxBytes k = ([], false, "Complete") := by
  simp [parse_sol_content_threaded, parseCancelAt, chunksOf, parseComplete, scanA, flatOf]

/-- C10: every token of a complete or interrupted outcome over a byte
buffer is well-formed: a Byte token whose value is 0x plus exactly two
lowercase hex digits, or a String token of length at least two consisting
of printable characters only. -/
theorem C10_tokens_wellformed (data : List Nat) (maxBytes k : Nat)
    (h : ∀ b ∈ data, b < 256) :
    ∀ t ∈ (parseCancelAt data maxBytes k).1, wfToken t := by
  have hdata : ∀ b ∈ data.take maxBytes, b < 256 :=
    fun b hb => h b (List.mem_of_mem_take hb)
  have hw : (∀ c ∈ (chunksOf data maxBytes).1, ∀ t ∈ c, wfToken t) ∧
      (∀ b ∈ (chunksOf data maxBytes).2, b < 256) :=
    scanA_wf (data.take maxBytes) [] [] (by simp) (by simp) hdata
  intro t ht
  by_cases hk : k < (chunksOf data maxBytes).1.length
  · simp only [parseCancelAt] at ht
    rw [if_pos hk] at ht
    obtain ⟨c, hc, htc⟩ := List.mem_flatten.mp ht
    exact hw.1 c (List.mem_of_mem_take hc) t htc
  · simp only [parseCancelAt] at ht
    rw [if_neg hk] at ht
    simp only [parseComplete, flatOf] at ht
    rcases List.mem_append.mp ht with hm | hm
    · obtain ⟨c, hc, htc⟩ := List.mem_flatten.mp hm
      exact hw.1 c hc t htc
    · obtain ⟨b, hb, rfl⟩ := List.mem_map.mp hm
      exact wfToken_byteTok b (hw.2 b hb)

/-- C10 witness at a concrete buffer. -/
theorem C10_tokens_wellformed_witness :
    (∀ b ∈ ([72, 105, 0] : List Nat), b < 256) ∧
      ∀ t ∈ (parseCancelAt [72, 105, 0] 100 5).1, wfToken t :=
  ⟨by decide, C10_tokens_wellformed [72, 105, 0] 100 5 (by decide)⟩
